import Mathlib

/-!
Verification of the minispell program: a string-keyed binary search tree
exercised under three insertion orders (as read, shuffled, balanced), driven
by a command-line harness that reads whitespace-delimited words from files.

The driver functions (readWords, insertAsRead, insertShuffled,
insertBalancedHelper, insertBalanced, option processing in main) are
translated from minispell.cpp.  The TreeStringSet container itself lives in a
header that is not among the sources, so its operations are modelled from the
specification and marked as such in their doc comments.
-/

/-- Decidability of string comparison routed through the underlying character
lists, so that concrete comparisons evaluate inside the kernel. -/
instance strDecLt : DecidableRel (α := String) (· < ·) := fun s₁ s₂ =>
  decidable_of_iff (s₁.toList < s₂.toList) String.lt_iff_toList_lt.symm

/-- Decidability of string order through strict comparison, so that concrete
comparisons evaluate inside the kernel. -/
instance strDecLe : DecidableRel (α := String) (· ≤ ·) := fun s₁ s₂ =>
  decidable_of_iff (¬ s₂ < s₁) not_lt

/-- Modelled from the spec: the String Search Tree (class TreeStringSet, whose
header is not among the sources).  A vertex holds one string key and two child
links; the tree is either absent (empty) or a node. -/
inductive TreeStringSet where
  | empty : TreeStringSet
  | node (left : TreeStringSet) (key : String) (right : TreeStringSet)
deriving DecidableEq

namespace TreeStringSet

/-- Modelled from the spec: insert descends comparing with ordinary string
ordering; less goes left, greater goes right, equal is a no-op; an absent
child slot receives a fresh node holding the word. -/
def insert : TreeStringSet → String → TreeStringSet
  | .empty, w => .node .empty w .empty
  | .node l k r, w =>
    if w < k then .node (insert l w) k r
    else if k < w then .node l k (insert r w)
    else .node l k r

/-- Modelled from the spec: exists() is the standard BST search, true on an
exact match, false on reaching an absent slot. -/
def search : TreeStringSet → String → Bool
  | .empty, _ => false
  | .node l k r, w =>
    if w < k then search l w
    else if k < w then search r w
    else true

/-- Modelled from the spec: size() returns the number of stored keys. -/
def size : TreeStringSet → Nat
  | .empty => 0
  | .node l _ r => size l + size r + 1

/-- Modelled from the spec: height() is the number of nodes on the longest
root-to-leaf path, 1 + the maximum of the children's heights, with an absent
child contributing 0. -/
def height : TreeStringSet → Nat
  | .empty => 0
  | .node l _ r => 1 + max (height l) (height r)

/-- Modelled from the spec: ordered (in-order) iteration visits the left
subtree, then the key, then the right subtree. -/
def toList : TreeStringSet → List String
  | .empty => []
  | .node l k r => toList l ++ k :: toList r

/-- Plain (order-agnostic) membership of a key somewhere in the tree. -/
def keyMem : TreeStringSet → String → Bool
  | .empty, _ => false
  | .node l k r, w => w = k || keyMem l w || keyMem r w

/-- Every key in the tree satisfies the boolean predicate. -/
def allKeys (p : String → Bool) : TreeStringSet → Bool
  | .empty => true
  | .node l k r => p k && allKeys p l && allKeys p r

/-- The binary-search-tree invariant: at every node all left keys are strictly
smaller and all right keys strictly larger than the node's key. -/
def isBST : TreeStringSet → Bool
  | .empty => true
  | .node l k r =>
    allKeys (fun x => decide (x < k)) l && allKeys (fun x => decide (k < x)) r
      && isBST l && isBST r

end TreeStringSet

/-- Default string used to render an out-of-bounds vector access. -/
def defaultWord : String := ""

/-- Modelled from the spec: obtaining the ordinal-k element of a tree by
skipping k positions forward from the start of ordered iteration and then
dereferencing.  A request with k ≥ size() is a well-defined failure that
signals position out of range rather than undefined behavior. -/
def ordinalAt (t : TreeStringSet) (k : Nat) : Except String String :=
  if k < t.size then .ok (t.toList.getD k defaultWord)
  else .error ("position out of range")

/-- Whitespace characters as recognized by C++ formatted stream extraction
(isspace in the default locale). -/
def wsChar (c : Char) : Bool :=
  c = ' ' || c = '\t' || c = '\n' || c = '\x0b' || c = '\x0c' || c = '\r'

/-- The reading loop of readWords: up to maxwords iterations of `in >> word`;
the loop breaks when extraction fails (no more words) and also — because the
code tests `!in.good()` — when the extraction that produced the word reached
end of input and set eofbit, in which case the word just read is discarded
before `push_back`. -/
def readWordsLoop : Nat → List Char → List String → List String
  | 0, _, words => words
  | Nat.succ n, cs, words =>
    let cs1 := cs.dropWhile (fun c => wsChar c)
    match cs1 with
    | [] => words
    | _ :: _ =>
      let w := cs1.takeWhile (fun c => !wsChar c)
      let rest := cs1.dropWhile (fun c => !wsChar c)
      match rest with
      | [] => words
      | _ :: _ => readWordsLoop n rest (words ++ [w.asString])

/-- readWords from minispell.cpp.  The filesystem is modelled as a partial map
from filenames to contents; a file that cannot be opened raises the rethrown
system error (the code wraps the filename in quotes and appends the system
message text, elided here), which no caller catches.  On success the words
read are appended to the vector passed in. -/
def readWords (fs : String → Option String) (words : List String)
    (filename : String) (maxwords : Nat) : Except String (List String) :=
  match fs filename with
  | none => Except.error ("Error reading " ++ filename)
  | some content => Except.ok (readWordsLoop maxwords content.data words)

/-- insertAsRead from minispell.cpp: insert every word in vector order, then
clear the vector.  Returns the final tree and the final vector contents. -/
def insertAsRead (dict : TreeStringSet) (words : List String) :
    TreeStringSet × List String :=
  (words.foldl TreeStringSet.insert dict, [])

/-- insertShuffled from minispell.cpp: shuffle the vector with a PRNG, then
delegate to insertAsRead.  The permutation the PRNG produces is supplied as
the collaborator `shuffle`. -/
def insertShuffled (dict : TreeStringSet) (words : List String)
    (shuffle : List String → List String) : TreeStringSet × List String :=
  insertAsRead dict (shuffle words)

/-- insertBalancedHelper from minispell.cpp: on the half-open index range
[start, pastEnd) insert the middle element, then recurse on the left and right
sub-ranges.  The structural fuel argument bounds the recursion depth; any fuel
of at least pastEnd - start computes the function the C++ recursion computes. -/
def insertBalancedHelper (fuel : Nat) (dict : TreeStringSet)
    (words : List String) (start pastEnd : Nat) : TreeStringSet :=
  match fuel with
  | 0 => dict
  | Nat.succ f =>
    if start ≥ pastEnd then dict
    else
      let size := pastEnd - start
      let mid := start + size / 2
      let dict1 := dict.insert (words.getD mid defaultWord)
      let dict2 := insertBalancedHelper f dict1 words start mid
      insertBalancedHelper f dict2 words (mid + 1) pastEnd

/-- insertBalanced from minispell.cpp: sort the vector ascending (std::sort
with operator<, modelled by insertion sort, which produces the same sorted
list), run the balanced helper over the whole index range, then clear the
vector. -/
def insertBalanced (dict : TreeStringSet) (words : List String) :
    TreeStringSet × List String :=
  let sorted := words.insertionSort (· ≤ ·)
  (insertBalancedHelper sorted.length dict sorted 0 sorted.length, [])

/-- ULONG_MAX on the 64-bit target; also the default value of the two word
caps (std::numeric_limits of size_t, max()). -/
def ULONG_MAX : Nat := 18446744073709551615

/-- Outcome of std::stoul on a string (base 10). -/
inductive StoulResult where
  | ok (v : Nat)
  | invalidArgument
  | outOfRange
deriving DecidableEq

/-- std::stoul on a string, base 10 (strtoul semantics): skip leading
whitespace, accept an optional sign, then a longest digit prefix.  No digits
raises invalid_argument; a value exceeding ULONG_MAX raises out_of_range; a
negative value wraps in unsigned arithmetic.  Trailing non-digit characters
are ignored. -/
def stoul (s : String) : StoulResult :=
  let cs := s.data.dropWhile (fun c => wsChar c)
  let signAndRest : Bool × List Char :=
    match cs with
    | '-' :: t => (true, t)
    | '+' :: t => (false, t)
    | _ => (false, cs)
  let digits := signAndRest.2.takeWhile (fun c => c.isDigit)
  match digits with
  | [] => StoulResult.invalidArgument
  | _ :: _ =>
    let n := digits.foldl (fun a c => a * 10 + (c.toNat - 48)) 0
    if n > ULONG_MAX then StoulResult.outOfRange
    else if signAndRest.1 then StoulResult.ok ((ULONG_MAX + 1 - n) % (ULONG_MAX + 1))
    else StoulResult.ok n

/-- The three insertion orders selectable on the command line. -/
inductive InsertionOrder where
  | asRead | shuffled | balanced
deriving DecidableEq

/-- The configuration main accumulates while processing options. -/
structure Config where
  insertionOrder : InsertionOrder
  dictFile : String
  fileToCheck : String
  maxDictWords : Nat
  maxCheckWords : Nat
deriving DecidableEq

/-- Default dictionary file path from minispell.cpp. -/
def DICT_FILE : String := "/home/student/data/smalldict.words"

/-- Default file-to-check path from minispell.cpp. -/
def CHECK_FILE : String := "/home/student/data/ispell.words"

/-- The defaults set at the top of main. -/
def defaultConfig : Config :=
  { insertionOrder := InsertionOrder.asRead, dictFile := DICT_FILE,
    fileToCheck := CHECK_FILE, maxDictWords := ULONG_MAX,
    maxCheckWords := ULONG_MAX }

/-- Outcome of main's option and argument processing: proceed with a
configuration, return from main with a printed message and an exit code, or
let an exception escape (std::out_of_range from stoul is never caught). -/
inductive ParseResult where
  | proceed (cfg : Config)
  | exitCode (msg : String) (code : Nat)
  | uncaught (msg : String)
deriving DecidableEq

/-- The C++ test `args.front()[0] == '-'`; indexing an empty std::string at 0
yields the null character, which is not a dash. -/
def startsWithDash (s : String) : Bool :=
  match s.data with
  | c :: _ => c = '-'
  | [] => false

/-- The code after main's option loop: an optional file-to-check argument,
and an error for any argument beyond it. -/
def handleFileArgs (args : List String) (cfg : Config) : ParseResult :=
  match args with
  | [] => ParseResult.proceed cfg
  | f :: rest =>
    match rest with
    | [] => ParseResult.proceed { cfg with fileToCheck := f }
    | extra :: _ => ParseResult.exitCode ("extra argument(s), " ++ extra) 1

/-- Main's option-processing loop from minispell.cpp, followed by the
trailing file-argument handling.  The usage text printed by the help option
is abbreviated to its first word. -/
def processArgs (args : List String) (cfg : Config) : ParseResult :=
  match args with
  | [] => handleFileArgs [] cfg
  | optionArg :: rest =>
    if !startsWithDash optionArg then handleFileArgs (optionArg :: rest) cfg
    else if optionArg = "-f" || optionArg = "--file-order" then
      processArgs rest { cfg with insertionOrder := InsertionOrder.asRead }
    else if optionArg = "-s" || optionArg = "--shuffled-order" then
      processArgs rest { cfg with insertionOrder := InsertionOrder.shuffled }
    else if optionArg = "-b" || optionArg = "--balanced-order" then
      processArgs rest { cfg with insertionOrder := InsertionOrder.balanced }
    else if optionArg = "-d" || optionArg = "--dict-file" then
      match rest with
      | [] => ParseResult.exitCode ("-d expects a filename") 1
      | fn :: rest2 => processArgs rest2 { cfg with dictFile := fn }
    else if optionArg = "-n" || optionArg = "--num-dict-words"
        || optionArg = "-m" || optionArg = "--num-check-words" then
      match rest with
      | [] => ParseResult.exitCode (optionArg ++ " expects a number") 1
      | v :: rest2 =>
        match stoul v with
        | StoulResult.ok num =>
          if optionArg = "-n" || optionArg = "--num-dict-words" then
            processArgs rest2 { cfg with maxDictWords := num }
          else
            processArgs rest2 { cfg with maxCheckWords := num }
        | StoulResult.invalidArgument =>
          ParseResult.exitCode (optionArg ++ " expects a number") 1
        | StoulResult.outOfRange =>
          ParseResult.uncaught ("stoul out of range")
    else if optionArg = "-h" || optionArg = "--help" then
      ParseResult.exitCode ("Usage") 0
    else
      ParseResult.exitCode ("Unknown option: " ++ optionArg) 1

/-- How a run of the whole process ends: a normal return from main with an
exit code, or an exception escaping main (abnormal termination: the runtime
reports the exception's message and the process status is non-zero). -/
inductive MainResult where
  | exit (code : Nat)
  | uncaught (msg : String)
deriving DecidableEq

/-- main from minispell.cpp (timing and text output elided): process the
arguments, read the dictionary, build the tree with the selected strategy,
look up the median word by advancing the ordered iterator size()/2 positions,
read the check file into the same vector, and count how many of its words the
dictionary contains.  Exceptions from readWords, stoul, or the iterator skip
are never caught and escape main. -/
def mainModel (fs : String → Option String)
    (shuffle : List String → List String) (argv : List String) : MainResult :=
  match processArgs argv defaultConfig with
  | ParseResult.exitCode _ code => MainResult.exit code
  | ParseResult.uncaught m => MainResult.uncaught m
  | ParseResult.proceed cfg =>
    match readWords fs [] cfg.dictFile cfg.maxDictWords with
    | Except.error m => MainResult.uncaught m
    | Except.ok words =>
      let built : TreeStringSet × List String :=
        match cfg.insertionOrder with
        | InsertionOrder.asRead => insertAsRead TreeStringSet.empty words
        | InsertionOrder.shuffled => insertShuffled TreeStringSet.empty words shuffle
        | InsertionOrder.balanced => insertBalanced TreeStringSet.empty words
      match ordinalAt built.1 (built.1.size / 2) with
      | Except.error m => MainResult.uncaught m
      | Except.ok _ =>
        match readWords fs built.2 cfg.fileToCheck cfg.maxCheckWords with
        | Except.error m => MainResult.uncaught m
        | Except.ok checkWords =>
          let _ := (checkWords.filter (fun w => built.1.search w)).length
          MainResult.exit 0

/-- The whitespace-delimited words a file's content consists of, written from
the claim's wording: maximal runs of non-whitespace characters. -/
def fileWordsAux : List Char → List Char → List String
  | [], cur => if cur.isEmpty then [] else [cur.reverse.asString]
  | c :: cs, cur =>
    if wsChar c then
      if cur.isEmpty then fileWordsAux cs []
      else cur.reverse.asString :: fileWordsAux cs []
    else fileWordsAux cs (c :: cur)

/-- The whitespace-delimited words a file's content consists of. -/
def fileWords (content : String) : List String :=
  fileWordsAux content.data []

/-- Written from the claim's wording: a command-line argument is a valid
number when, after an optional sign, it is a nonempty string of decimal
digits. -/
def specIsValidNumber (s : String) : Bool :=
  let cs :=
    match s.data with
    | '+' :: t => t
    | '-' :: t => t
    | t => t
  !cs.isEmpty && cs.all (fun c => c.isDigit)

/-- A degenerate right chain: each element is the sole (right) child of its
predecessor.  Inserting an ascending sequence produces exactly this shape. -/
def rightChain : List String → TreeStringSet
  | [] => TreeStringSet.empty
  | w :: rest => TreeStringSet.node TreeStringSet.empty w (rightChain rest)


namespace TreeStringSet

theorem allKeys_imp {p : String → Bool} {t : TreeStringSet}
    (h : allKeys p t = true) {x : String} (hx : keyMem t x = true) :
    p x = true := by
  induction t with
  | empty => simp [keyMem] at hx
  | node l k r ihl ihr =>
    simp only [allKeys, Bool.and_eq_true] at h
    simp only [keyMem, Bool.or_eq_true, decide_eq_true_eq] at hx
    rcases hx with (rfl | hx) | hx
    · exact h.1.1
    · exact ihl h.1.2 hx
    · exact ihr h.2 hx

theorem allKeys_insert {p : String → Bool} {t : TreeStringSet} {w : String}
    (h : allKeys p t = true) (hw : p w = true) :
    allKeys p (insert t w) = true := by
  induction t with
  | empty => simp [insert, allKeys, hw]
  | node l k r ihl ihr =>
    simp only [allKeys, Bool.and_eq_true] at h
    by_cases h1 : w < k
    · simp [insert, h1, allKeys, h.1.1, h.2, ihl h.1.2]
    · by_cases h2 : k < w
      · simp [insert, h1, h2, allKeys, h.1.1, h.1.2, ihr h.2]
      · simp [insert, h1, h2, allKeys, h.1.1, h.1.2, h.2]

theorem insert_isBST {t : TreeStringSet} {w : String} (h : isBST t = true) :
    isBST (insert t w) = true := by
  induction t with
  | empty => simp [insert, isBST, allKeys]
  | node l k r ihl ihr =>
    simp only [isBST, Bool.and_eq_true] at h
    obtain ⟨⟨⟨hal, har⟩, hl⟩, hr⟩ := h
    by_cases h1 : w < k
    · have haw : decide (w < k) = true := decide_eq_true h1
      simp only [insert, if_pos h1, isBST, Bool.and_eq_true]
      exact ⟨⟨⟨allKeys_insert hal haw, har⟩, ihl hl⟩, hr⟩
    · by_cases h2 : k < w
      · have haw : decide (k < w) = true := decide_eq_true h2
        simp only [insert, if_neg h1, if_pos h2, isBST, Bool.and_eq_true]
        exact ⟨⟨⟨hal, allKeys_insert har haw⟩, hl⟩, ihr hr⟩
      · simp only [insert, if_neg h1, if_neg h2, isBST, Bool.and_eq_true]
        exact ⟨⟨⟨hal, har⟩, hl⟩, hr⟩

theorem keyMem_insert {t : TreeStringSet} {w x : String} :
    keyMem (insert t w) x = true ↔ x = w ∨ keyMem t x = true := by
  induction t with
  | empty => simp [insert, keyMem]
  | node l k r ihl ihr =>
    by_cases h1 : w < k
    · simp only [insert, if_pos h1, keyMem, Bool.or_eq_true, decide_eq_true_eq,
        ihl]
      tauto
    · by_cases h2 : k < w
      · simp only [insert, if_neg h1, if_pos h2, keyMem, Bool.or_eq_true,
          decide_eq_true_eq, ihr]
        tauto
      · have hwk : w = k := le_antisymm (not_lt.1 h2) (not_lt.1 h1)
        subst hwk
        simp only [insert, if_neg h1, if_neg h2, keyMem, Bool.or_eq_true,
          decide_eq_true_eq]
        tauto

theorem mem_toList_iff {t : TreeStringSet} {x : String} :
    x ∈ toList t ↔ keyMem t x = true := by
  induction t with
  | empty => simp [toList, keyMem]
  | node l k r ihl ihr =>
    simp only [toList, keyMem, List.mem_append, List.mem_cons, Bool.or_eq_true,
      decide_eq_true_eq, ihl, ihr]
    tauto

theorem search_eq_keyMem {t : TreeStringSet} (h : isBST t = true) {x : String} :
    search t x = keyMem t x := by
  induction t with
  | empty => simp [search, keyMem]
  | node l k r ihl ihr =>
    simp only [isBST, Bool.and_eq_true] at h
    obtain ⟨⟨⟨hal, har⟩, hl⟩, hr⟩ := h
    by_cases h1 : x < k
    · have hxk : ¬ x = k := ne_of_lt h1
      have hkr : keyMem r x = false := by
        by_contra hc
        rw [Bool.not_eq_false] at hc
        exact absurd (of_decide_eq_true (allKeys_imp har hc)) (lt_asymm h1)
      simp [search, h1, keyMem, ihl hl, hxk, hkr]
    · by_cases h2 : k < x
      · have hxk : ¬ x = k := (ne_of_lt h2).symm
        have hkl : keyMem l x = false := by
          by_contra hc
          rw [Bool.not_eq_false] at hc
          exact absurd (of_decide_eq_true (allKeys_imp hal hc)) (lt_asymm h2)
        simp [search, h1, h2, keyMem, ihr hr, hxk, hkl]
      · have hxk : x = k := le_antisymm (not_lt.1 h2) (not_lt.1 h1)
        simp [search, h1, h2, keyMem, hxk]

theorem length_toList (t : TreeStringSet) : (toList t).length = size t := by
  induction t with
  | empty => simp [toList, size]
  | node l k r ihl ihr => simp [toList, size, ihl, ihr]; omega

theorem size_insert_of_not_mem {t : TreeStringSet} {w : String}
    (h : keyMem t w = false) : size (insert t w) = size t + 1 := by
  induction t with
  | empty => simp [insert, size]
  | node l k r ihl ihr =>
    simp only [keyMem, Bool.or_eq_false_iff, decide_eq_false_iff_not] at h
    by_cases h1 : w < k
    · simp only [insert, if_pos h1, size, ihl h.1.2]
      omega
    · by_cases h2 : k < w
      · simp only [insert, if_neg h1, if_pos h2, size, ihr h.2]
        omega
      · exact absurd (le_antisymm (not_lt.1 h2) (not_lt.1 h1)) h.1.1

theorem toList_sorted {t : TreeStringSet} (h : isBST t = true) :
    (toList t).Sorted (· < ·) := by
  induction t with
  | empty => simp [toList]
  | node l k r ihl ihr =>
    simp only [isBST, Bool.and_eq_true] at h
    obtain ⟨⟨⟨hal, har⟩, hl⟩, hr⟩ := h
    simp only [toList]
    refine List.pairwise_append.2 ⟨ihl hl, List.pairwise_cons.2 ⟨?_, ihr hr⟩, ?_⟩
    · intro y hy
      exact of_decide_eq_true (allKeys_imp har (mem_toList_iff.1 hy))
    · intro x hx y hy
      have hxk : x < k := of_decide_eq_true (allKeys_imp hal (mem_toList_iff.1 hx))
      rcases List.mem_cons.1 hy with rfl | hy2
      · exact hxk
      · exact lt_trans hxk (of_decide_eq_true (allKeys_imp har (mem_toList_iff.1 hy2)))

theorem foldl_insert_isBST (ws : List String) :
    ∀ t : TreeStringSet, isBST t = true → isBST (ws.foldl insert t) = true := by
  induction ws with
  | nil => intro t h; simpa using h
  | cons w rest ih => intro t h; exact ih _ (insert_isBST h)

theorem keyMem_foldl {ws : List String} :
    ∀ {t : TreeStringSet} {x : String},
      keyMem (ws.foldl insert t) x = true ↔ x ∈ ws ∨ keyMem t x = true := by
  induction ws with
  | nil => intro t x; simp
  | cons w rest ih =>
    intro t x
    rw [List.foldl_cons, ih, keyMem_insert]
    simp only [List.mem_cons]
    tauto

theorem size_foldl_insert (ws : List String) :
    ∀ t : TreeStringSet, ws.Nodup → (∀ w ∈ ws, keyMem t w = false) →
      size (ws.foldl insert t) = size t + ws.length := by
  induction ws with
  | nil => intro t _ _; simp
  | cons w rest ih =>
    intro t hnd hfresh
    rw [List.foldl_cons]
    have h1 : keyMem t w = false := hfresh w (List.mem_cons_self w rest)
    have h2 : ∀ x ∈ rest, keyMem (insert t w) x = false := by
      intro x hx
      rw [Bool.eq_false_iff]
      intro hc
      rcases keyMem_insert.1 hc with rfl | hc2
      · exact (List.nodup_cons.1 hnd).1 hx
      · simp [hfresh x (List.mem_cons_of_mem w hx)] at hc2
    rw [ih _ (List.nodup_cons.1 hnd).2 h2, size_insert_of_not_mem h1, List.length_cons]
    omega

end TreeStringSet

namespace TreeStringSet

theorem insert_empty (w : String) : insert .empty w = node .empty w .empty := rfl

theorem insert_lt {l r : TreeStringSet} {k x : String} (h : x < k) :
    insert (node l k r) x = node (insert l x) k r := by
  simp only [insert, if_pos h]

theorem insert_gt {l r : TreeStringSet} {k x : String} (h : k < x) :
    insert (node l k r) x = node l k (insert r x) := by
  simp only [insert, if_neg (lt_asymm h), if_pos h]

theorem foldl_insert_gt {ws : List String} :
    ∀ {tl tr : TreeStringSet} {k : String}, (∀ x ∈ ws, k < x) →
      ws.foldl insert (node tl k tr) = node tl k (ws.foldl insert tr) := by
  induction ws with
  | nil => intro tl tr k _; simp
  | cons w rest ih =>
    intro tl tr k h
    rw [List.foldl_cons, insert_gt (h w (List.mem_cons_self w rest)),
      List.foldl_cons, ih (fun x hx => h x (List.mem_cons_of_mem w hx))]

theorem foldl_insert_sorted_eq_rightChain {ws : List String}
    (h : ws.Sorted (· < ·)) : ws.foldl insert .empty = rightChain ws := by
  induction ws with
  | nil => rfl
  | cons w rest ih =>
    rw [List.foldl_cons, insert_empty,
      foldl_insert_gt (List.rel_of_sorted_cons h), rightChain, ih h.of_cons]

theorem height_rightChain (ws : List String) :
    height (rightChain ws) = ws.length := by
  induction ws with
  | nil => rfl
  | cons w rest ih =>
    simp only [rightChain, height, List.length_cons, ih]
    omega

theorem insertBalancedHelper_lt {fuel : Nat} :
    ∀ {l r : TreeStringSet} {k : String} {words : List String}
      {start pastEnd : Nat},
      (∀ i, start ≤ i → i < pastEnd → words.getD i defaultWord < k) →
      insertBalancedHelper fuel (node l k r) words start pastEnd
        = node (insertBalancedHelper fuel l words start pastEnd) k r := by
  induction fuel with
  | zero => intro l r k words start pastEnd _; rfl
  | succ f ih =>
    intro l r k words start pastEnd h
    by_cases hse : start ≥ pastEnd
    · simp [insertBalancedHelper, hse]
    · have hmidlt : start + (pastEnd - start) / 2 < pastEnd := by omega
      have hmidge : start ≤ start + (pastEnd - start) / 2 := by omega
      simp only [insertBalancedHelper, if_neg hse]
      rw [insert_lt (h _ hmidge hmidlt),
        ih (fun i h1 h2 => h i h1 (by omega)),
        ih (fun i h1 h2 => h i (by omega) h2)]

theorem insertBalancedHelper_gt {fuel : Nat} :
    ∀ {l r : TreeStringSet} {k : String} {words : List String}
      {start pastEnd : Nat},
      (∀ i, start ≤ i → i < pastEnd → k < words.getD i defaultWord) →
      insertBalancedHelper fuel (node l k r) words start pastEnd
        = node l k (insertBalancedHelper fuel r words start pastEnd) := by
  induction fuel with
  | zero => intro l r k words start pastEnd _; rfl
  | succ f ih =>
    intro l r k words start pastEnd h
    by_cases hse : start ≥ pastEnd
    · simp [insertBalancedHelper, hse]
    · have hmidlt : start + (pastEnd - start) / 2 < pastEnd := by omega
      have hmidge : start ≤ start + (pastEnd - start) / 2 := by omega
      simp only [insertBalancedHelper, if_neg hse]
      rw [insert_gt (h _ hmidge hmidlt),
        ih (fun i h1 h2 => h i h1 (by omega)),
        ih (fun i h1 h2 => h i (by omega) h2)]

end TreeStringSet

theorem sorted_getD_lt {l : List String} (h : l.Sorted (· < ·)) {i j : Nat}
    (hij : i < j) (hj : j < l.length) :
    l.getD i defaultWord < l.getD j defaultWord := by
  have hi : i < l.length := lt_trans hij hj
  rw [List.getD_eq_getElem?_getD, List.getElem?_eq_getElem hi,
    List.getD_eq_getElem?_getD, List.getElem?_eq_getElem hj]
  simp only [Option.getD_some]
  have := h.rel_get_of_lt (a := ⟨i, hi⟩) (b := ⟨j, hj⟩) hij
  simpa [List.get_eq_getElem] using this

theorem clog2_step {n : Nat} (h : 1 ≤ n) :
    Nat.clog 2 (n + 1) = Nat.clog 2 (n / 2 + 1) + 1 := by
  rw [Nat.clog_of_two_le (by norm_num) (by omega)]
  congr 2
  omega

theorem insertBalancedHelper_height {words : List String}
    (hsort : words.Sorted (· < ·)) :
    ∀ n fuel start pastEnd : Nat, pastEnd - start = n → n ≤ fuel →
      pastEnd ≤ words.length →
      TreeStringSet.height
          (insertBalancedHelper fuel TreeStringSet.empty words start pastEnd)
        = Nat.clog 2 (n + 1) := by
  intro n
  induction n using Nat.strong_induction_on with
  | _ n ih =>
    intro fuel start pastEnd hn hfuel hlen
    rcases Nat.eq_zero_or_pos n with rfl | hpos
    · have hse : start ≥ pastEnd := by omega
      have hz : Nat.clog 2 (0 + 1) = 0 := Nat.clog_of_right_le_one le_rfl 2
      cases fuel with
      | zero => simp [insertBalancedHelper, TreeStringSet.height, hz]
      | succ f =>
        simp [insertBalancedHelper, hse, TreeStringSet.height, hz]
    · obtain ⟨f, rfl⟩ : ∃ f, fuel = f + 1 := ⟨fuel - 1, by omega⟩
      have hse : ¬ start ≥ pastEnd := by omega
      simp only [insertBalancedHelper, if_neg hse, TreeStringSet.insert_empty]
      rw [hn]
      have hmidlt : start + n / 2 < pastEnd := by omega
      have hmidlen : start + n / 2 < words.length := by omega
      rw [TreeStringSet.insertBalancedHelper_lt
          (fun i h1 h2 => sorted_getD_lt hsort (by omega) hmidlen),
        TreeStringSet.insertBalancedHelper_gt
          (fun i h1 h2 => sorted_getD_lt hsort (by omega) (by omega))]
      simp only [TreeStringSet.height]
      rw [ih (n / 2) (by omega) f start (start + n / 2) (by omega) (by omega)
          (by omega),
        ih (n - n / 2 - 1) (by omega) f (start + n / 2 + 1) pastEnd (by omega)
          (by omega) (by omega)]
      rw [Nat.max_eq_left
        (Nat.clog_mono_right 2 (by omega : n - n / 2 - 1 + 1 ≤ n / 2 + 1))]
      rw [clog2_step hpos]
      omega

/-- C1: inserting any finite set of distinct strings one by one into an
initially empty tree yields size() equal to the number of distinct strings
inserted, exists(w) true for every inserted w, and exists(w) false for every
string never inserted. -/
theorem claim_C1 (ws : List String) (hnd : ws.Nodup) :
    (ws.foldl TreeStringSet.insert TreeStringSet.empty).size = ws.length
      ∧ (∀ w ∈ ws,
          (ws.foldl TreeStringSet.insert TreeStringSet.empty).search w = true)
      ∧ ∀ w, w ∉ ws →
          (ws.foldl TreeStringSet.insert TreeStringSet.empty).search w = false := by
  have hbst := TreeStringSet.foldl_insert_isBST ws TreeStringSet.empty rfl
  refine ⟨?_, ?_, ?_⟩
  · have h := TreeStringSet.size_foldl_insert ws TreeStringSet.empty hnd
      (fun w _ => rfl)
    simpa [TreeStringSet.size] using h
  · intro w hw
    rw [TreeStringSet.search_eq_keyMem hbst]
    exact TreeStringSet.keyMem_foldl.2 (Or.inl hw)
  · intro w hw
    rw [TreeStringSet.search_eq_keyMem hbst, Bool.eq_false_iff]
    intro hc
    rcases TreeStringSet.keyMem_foldl.1 hc with h | h
    · exact hw h
    · simp [TreeStringSet.keyMem] at h

/-- Witness for C1 at the concrete input ["b", "a", "c"]. -/
theorem claim_C1_witness :
    (["b", "a", "c"].foldl TreeStringSet.insert TreeStringSet.empty).size = 3
      ∧ (["b", "a", "c"].foldl TreeStringSet.insert
          TreeStringSet.empty).search ("a") = true
      ∧ (["b", "a", "c"].foldl TreeStringSet.insert
          TreeStringSet.empty).search ("z") = false := by
  obtain ⟨h1, h2, h3⟩ := claim_C1 (["b", "a", "c"]) (by decide)
  exact ⟨h1, h2 ("a") (by decide), h3 ("z") (by decide)⟩

/-- C2: for every vector of n distinct words, balanced insertion into an empty
tree yields height exactly ceil(log2(n+1)) — stated with Nat.clog 2 —
regardless of the original order of the words. -/
theorem claim_C2 (ws : List String) (hnd : ws.Nodup) :
    (insertBalanced TreeStringSet.empty ws).1.height
      = Nat.clog 2 (ws.length + 1) := by
  have hperm := List.perm_insertionSort (α := String) (· ≤ ·) ws
  have hsorted : (ws.insertionSort (· ≤ ·)).Sorted (· ≤ ·) :=
    List.sorted_insertionSort (· ≤ ·) ws
  have hnd2 : (ws.insertionSort (· ≤ ·)).Nodup := hperm.nodup_iff.2 hnd
  have hstrict : (ws.insertionSort (· ≤ ·)).Sorted (· < ·) :=
    List.Sorted.lt_of_le hsorted hnd2
  have hlen : (ws.insertionSort (· ≤ ·)).length = ws.length := hperm.length_eq
  show TreeStringSet.height
      (insertBalancedHelper (ws.insertionSort (· ≤ ·)).length TreeStringSet.empty
        (ws.insertionSort (· ≤ ·)) 0 (ws.insertionSort (· ≤ ·)).length)
    = Nat.clog 2 (ws.length + 1)
  rw [insertBalancedHelper_height hstrict (ws.insertionSort (· ≤ ·)).length
      (ws.insertionSort (· ≤ ·)).length 0 (ws.insertionSort (· ≤ ·)).length
      (by omega) le_rfl le_rfl, hlen]

/-- Witness for C2 at the concrete input ["b", "a", "c"]. -/
theorem claim_C2_witness :
    (insertBalanced TreeStringSet.empty ["b", "a", "c"]).1.height
      = Nat.clog 2 (3 + 1) :=
  claim_C2 (["b", "a", "c"]) (by decide)

/-- C3: the balanced strategy on ["a", "b", "c", "d", "e"] produces the tree
with root "c", left subtree holding exactly "a" and "b", right subtree holding
exactly "d" and "e", and height 3. -/
theorem claim_C3 :
    (insertBalanced TreeStringSet.empty ["a", "b", "c", "d", "e"]).1
        = TreeStringSet.node
            (TreeStringSet.node
              (TreeStringSet.node TreeStringSet.empty ("a") TreeStringSet.empty)
              ("b") TreeStringSet.empty)
            ("c")
            (TreeStringSet.node
              (TreeStringSet.node TreeStringSet.empty ("d") TreeStringSet.empty)
              ("e") TreeStringSet.empty)
      ∧ (insertBalanced TreeStringSet.empty ["a", "b", "c", "d", "e"]).1.height
          = 3 := by
  constructor <;> rfl

/-- C4: as-read insertion of an already-sorted sequence of distinct strings
produces the fully degenerate right chain, whose height equals the number of
strings. -/
theorem claim_C4 (ws : List String) (hsorted : ws.Sorted (· < ·)) :
    (insertAsRead TreeStringSet.empty ws).1 = rightChain ws
      ∧ (insertAsRead TreeStringSet.empty ws).1.height = ws.length := by
  have h := TreeStringSet.foldl_insert_sorted_eq_rightChain hsorted
  refine ⟨h, ?_⟩
  show TreeStringSet.height (ws.foldl TreeStringSet.insert TreeStringSet.empty)
    = ws.length
  rw [h, TreeStringSet.height_rightChain]

/-- Witness for C4 at the concrete input ["a", "b", "c"]. -/
theorem claim_C4_witness :
    (insertAsRead TreeStringSet.empty ["a", "b", "c"]).1.height = 3 :=
  (claim_C4 (["a", "b", "c"]) (by decide)).2

/-- C5: for every tree built by a sequence of insert calls on an initially
empty tree, ordered iteration yields the keys in strictly increasing (hence
non-decreasing) lexicographic order, and yields exactly size() elements. -/
theorem claim_C5 (ws : List String) :
    ((ws.foldl TreeStringSet.insert TreeStringSet.empty).toList).Sorted (· < ·)
      ∧ ((ws.foldl TreeStringSet.insert TreeStringSet.empty).toList).length
          = (ws.foldl TreeStringSet.insert TreeStringSet.empty).size := by
  have hbst := TreeStringSet.foldl_insert_isBST ws TreeStringSet.empty rfl
  exact ⟨TreeStringSet.toList_sorted hbst, TreeStringSet.length_toList _⟩

/-- C6: requesting the ordinal-k element by skipping k positions from the
start of iteration is the well-defined position-out-of-range failure whenever
k ≥ size(); in particular the driver's median lookup at index size()/2 is this
well-defined failure on the empty tree. -/
theorem claim_C6 :
    (∀ (t : TreeStringSet) (k : Nat), t.size ≤ k →
        ordinalAt t k = Except.error ("position out of range"))
      ∧ ordinalAt TreeStringSet.empty (TreeStringSet.empty.size / 2)
          = Except.error ("position out of range") := by
  constructor
  · intro t k hk
    rw [ordinalAt, if_neg (by omega)]
  · rfl

/-- Witness for C6 at a concrete one-node tree and index 1. -/
theorem claim_C6_witness :
    ordinalAt (TreeStringSet.node TreeStringSet.empty ("a") TreeStringSet.empty) 1
      = Except.error ("position out of range") :=
  claim_C6.1 (TreeStringSet.node TreeStringSet.empty ("a") TreeStringSet.empty) 1
    (by decide)

/-- C9: each of the three insertion strategies leaves the words vector empty
when it returns, whatever the vector held before. -/
theorem claim_C9 (dict : TreeStringSet) (words : List String)
    (shuffle : List String → List String) :
    (insertAsRead dict words).2 = []
      ∧ (insertShuffled dict words shuffle).2 = []
      ∧ (insertBalanced dict words).2 = [] :=
  ⟨rfl, rfl, rfl⟩

/-- C10: whatever permutation the shuffle produces, insertShuffled builds a
tree with exactly the same keys — the same ordered key sequence, the same
size(), and the same membership answers — as insertAsRead on the same
vector. -/
theorem claim_C10 (words : List String) (shuffle : List String → List String)
    (hperm : (shuffle words).Perm words) :
    (insertShuffled TreeStringSet.empty words shuffle).1.toList
        = (insertAsRead TreeStringSet.empty words).1.toList
      ∧ (insertShuffled TreeStringSet.empty words shuffle).1.size
          = (insertAsRead TreeStringSet.empty words).1.size
      ∧ ∀ w, (insertShuffled TreeStringSet.empty words shuffle).1.search w
          = (insertAsRead TreeStringSet.empty words).1.search w := by
  have hbst1 : ((shuffle words).foldl TreeStringSet.insert
      TreeStringSet.empty).isBST = true :=
    TreeStringSet.foldl_insert_isBST (shuffle words) TreeStringSet.empty rfl
  have hbst2 : (words.foldl TreeStringSet.insert TreeStringSet.empty).isBST
      = true :=
    TreeStringSet.foldl_insert_isBST words TreeStringSet.empty rfl
  have hmem : ∀ x,
      TreeStringSet.keyMem
          ((shuffle words).foldl TreeStringSet.insert TreeStringSet.empty) x
          = true
        ↔ TreeStringSet.keyMem
            (words.foldl TreeStringSet.insert TreeStringSet.empty) x = true := by
    intro x
    rw [TreeStringSet.keyMem_foldl, TreeStringSet.keyMem_foldl]
    simp [hperm.mem_iff]
  have hs1 := TreeStringSet.toList_sorted hbst1
  have hs2 := TreeStringSet.toList_sorted hbst2
  have hlist :
      ((shuffle words).foldl TreeStringSet.insert TreeStringSet.empty).toList
        = (words.foldl TreeStringSet.insert TreeStringSet.empty).toList := by
    haveI : IsAntisymm String (· < ·) :=
      ⟨fun a b h1 h2 => absurd h2 (asymm h1)⟩
    refine List.eq_of_perm_of_sorted ?_ hs1 hs2
    refine (List.perm_ext_iff_of_nodup hs1.nodup hs2.nodup).2 ?_
    intro a
    rw [TreeStringSet.mem_toList_iff, TreeStringSet.mem_toList_iff]
    exact hmem a
  refine ⟨hlist, ?_, ?_⟩
  · show ((shuffle words).foldl TreeStringSet.insert TreeStringSet.empty).size
      = (words.foldl TreeStringSet.insert TreeStringSet.empty).size
    rw [← TreeStringSet.length_toList, ← TreeStringSet.length_toList, hlist]
  · intro w
    show ((shuffle words).foldl TreeStringSet.insert TreeStringSet.empty).search w
      = (words.foldl TreeStringSet.insert TreeStringSet.empty).search w
    rw [TreeStringSet.search_eq_keyMem hbst1,
      TreeStringSet.search_eq_keyMem hbst2]
    exact Bool.eq_iff_iff.2 (by simpa using hmem w)

/-- Witness for C10 at the concrete input ["a", "b"] with reversal as the
shuffle. -/
theorem claim_C10_witness :
    (insertShuffled TreeStringSet.empty ["a", "b"] List.reverse).1.toList
      = (insertAsRead TreeStringSet.empty ["a", "b"]).1.toList :=
  (claim_C10 (["a", "b"]) List.reverse (List.reverse_perm (["a", "b"]))).1

/-- A concrete filesystem: the default dictionary and check files exist (with
trailing whitespace), nothing else does. -/
def fsEx : String → Option String := fun f =>
  if f = DICT_FILE then some ("apple banana ")
  else if f = CHECK_FILE then some ("apple zebra ") else none

/-- Counterexample to C7 as stated: "12abc" is not a valid number, yet the
invocation `-n 12abc -m 5` is accepted silently (stoul parses the prefix 12)
and the whole run exits with status 0. -/
theorem claim_C7_counterexample :
    specIsValidNumber ("12abc") = false
      ∧ stoul ("12abc") = StoulResult.ok 12
      ∧ mainModel fsEx id ["-n", "12abc", "-m", "5"] = MainResult.exit 0 := by
  refine ⟨rfl, rfl, ?_⟩
  rfl

/-- C7 amended: when the argument following -n, --num-dict-words, -m or
--num-check-words has no parseable numeric prefix (std::stoul raises
invalid_argument), main prints "option expects a number" and returns exit
status 1; and an invocation naming an unreadable dictionary file makes the
rethrown system error (whose message names the file) escape main, terminating
the process abnormally — hence with a non-zero status. -/
theorem claim_C7_amended :
    (∀ (opt v : String) (rest : List String),
        (opt = "-n" ∨ opt = "--num-dict-words" ∨ opt = "-m"
          ∨ opt = "--num-check-words") →
        stoul v = StoulResult.invalidArgument →
        processArgs (opt :: v :: rest) defaultConfig
          = ParseResult.exitCode (opt ++ " expects a number") 1)
      ∧ ∀ (fs : String → Option String) (shuffle : List String → List String)
          (fname : String), fs fname = none →
          mainModel fs shuffle ["-d", fname]
            = MainResult.uncaught ("Error reading " ++ fname) := by
  constructor
  · intro opt v rest hopt hv
    rcases hopt with rfl | rfl | rfl | rfl <;>
      simp [processArgs, startsWithDash, hv]
  · intro fs shuffle fname hfs
    simp [mainModel, processArgs, startsWithDash, handleFileArgs, defaultConfig,
      readWords, hfs]

/-- Witness for the amended C7 at concrete inputs. -/
theorem claim_C7_witness :
    processArgs ["-n", "abc"] defaultConfig
        = ParseResult.exitCode (("-n") ++ " expects a number") 1
      ∧ mainModel (fun _ => none) id ["-d", "nofile"]
          = MainResult.uncaught (("Error reading ") ++ "nofile") :=
  ⟨claim_C7_amended.1 ("-n") ("abc") [] (Or.inl rfl) (by rfl),
    claim_C7_amended.2 (fun _ => none) id ("nofile") rfl⟩

/-- A concrete filesystem for C8: one file whose content does not end in
whitespace. -/
def fsC8 : String → Option String := fun f =>
  if f = ("words.txt") then some ("a b c") else none

/-- C8, evaluated at the failing input: the file "words.txt" contains the
three words a, b, c and the cap is 10, yet readWords appends only ["a", "b"]:
extracting the final word "c" reaches end of file and sets eofbit, and the
loop's `!in.good()` test discards it before push_back. -/
theorem claim_C8 :
    fileWords ("a b c") = ["a", "b", "c"]
      ∧ readWords fsC8 [] ("words.txt") 10 = Except.ok (["a", "b"]) := by
  constructor <;> rfl
